import Mathlib

/-!
Verification of the peer-reputation gate in `p2p/persistence.py`
(`SQLitePeerInfoPersistence` / `MemoryPeerInfoPersistence`).

Shallow embedding: Python `datetime` values become `Nat` microseconds since
the epoch (Python datetimes have microsecond resolution); the ISO-8601 string
produced by `time_to_str` (`isoformat(timespec='seconds')`, which truncates
to whole seconds) is embedded by the whole-second count it encodes; the
SQLite database file becomes an explicit `DBFile` record whose `bad_nodes`
table is a list of rows (SQLite imposes no uniqueness constraint on
`enode`, so duplicates are representable); a store handle is a `Store`
carrying the file and the `closed` flag; methods guarded by `must_be_open`
return `Except PException _` and raise `ClosedException` when closed.
A peer (`Node`) is embedded by its `uri()` string, the only part the code
reads.
-/

namespace Trinity

/-- Python `datetime` instants, as microseconds since the epoch. -/
abbrev Time := Nat

/-- Microseconds per second: `datetime.timedelta(seconds = k)` is `k * usecPerSec`. -/
def usecPerSec : Nat := 1000000

/-- `time_to_str`: `time.isoformat(timespec='seconds')` truncates the instant to
whole seconds; the resulting string is embedded by the second count it encodes. -/
def time_to_str (time : Time) : Nat := time / usecPerSec

/-- `str_to_time`: `strptime(as_str, "%Y-%m-%dT%H:%M:%S")` parses a whole-second
string back into an instant (with zero sub-second part). -/
def str_to_time (as_str : Nat) : Time := as_str * usecPerSec

/-- One row of the `bad_nodes` table: `(enode, until, reason, error_count)`.
`until` holds the persisted ISO string, embedded as whole seconds. -/
structure Row where
  enode : String
  until_ : Nat
  reason : String
  error_count : Nat
deriving Repr, DecidableEq

/-- The SQLite database file: whether the `schema_version` table exists, its
rows, and the rows of the `bad_nodes` table. -/
structure DBFile where
  hasSchemaTable : Bool
  schema_version : List Int
  bad_nodes : List Row
deriving Repr, DecidableEq

/-- A store handle (`SQLitePeerInfoPersistence` instance): the path it was
opened on, the database file behind the connection, and the `closed` flag. -/
structure Store where
  path : String
  file : DBFile
  closed : Bool
deriving Repr, DecidableEq

/-- The exceptions the module raises: `ClosedException` from `must_be_open`,
and the two `Exception(...)` raised by `_schema_already_created`. -/
inductive PException where
  | ClosedException
  | MalformedNodedb (rows : Nat)
  | UnsupportedVersion (version : Int)
deriving Repr, DecidableEq

/-- `_fetch_node`: `SELECT * from bad_nodes WHERE enode = ?` then `fetchone()`
— the first row whose `enode` matches. -/
def fetch_node (f : DBFile) (enode : String) : Option Row :=
  f.bad_nodes.find? (fun r => r.enode == enode)

/-- `_insert_node`: `INSERT INTO bad_nodes (enode, until, reason, error_count)
VALUES (?, ?, ?, ?)` with `until` stored as `time_to_str(until)`. -/
def insert_node (s : Store) (enode : String) (until_ : Time) (reason : String)
    (error_count : Nat) : Store :=
  { s with file := { s.file with
      bad_nodes := s.file.bad_nodes ++ [⟨enode, time_to_str until_, reason, error_count⟩] } }

/-- `_update_node`: `UPDATE bad_nodes SET until = ?, reason = ?, error_count = ?
WHERE enode = ?` with `until` stored as `time_to_str(until)`. -/
def update_node (s : Store) (enode : String) (until_ : Time) (reason : String)
    (error_count : Nat) : Store :=
  { s with file := { s.file with
      bad_nodes := s.file.bad_nodes.map (fun r =>
        if r.enode == enode then
          { r with until_ := time_to_str until_, reason := reason, error_count := error_count }
        else r) } }

/-- `record_failure` (guarded by `must_be_open`): fetch the peer's row; if one
exists bump `error_count` and set `until = now + timeout * new_error_count`
seconds via `_update_node`, else insert a fresh row with `error_count = 1`
and `until = now + timeout` seconds. `now` is the injected `current_time()`. -/
def record_failure (s : Store) (remote : String) (timeout : Nat) (reason : String)
    (now : Time) : Except PException Store :=
  if s.closed then .error .ClosedException
  else
    match fetch_node s.file remote with
    | some row =>
        let new_error_count := row.error_count + 1
        let usable_time := now + timeout * new_error_count * usecPerSec
        .ok (update_node s remote usable_time reason new_error_count)
    | none =>
        let usable_time := now + timeout * usecPerSec
        .ok (insert_node s remote usable_time reason 1)

/-- `should_connect_to` (guarded by `must_be_open`): no row means `True`;
otherwise `False` exactly when `current_time() < str_to_time(row['until'])`.
The method only reads; the store it leaves behind is threaded explicitly. -/
def should_connect_to (s : Store) (remote : String) (now : Time) :
    Except PException (Bool × Store) :=
  if s.closed then .error .ClosedException
  else
    match fetch_node s.file remote with
    | none => .ok (true, s)
    | some row =>
        let until_ := str_to_time row.until_
        if now < until_ then .ok (false, s) else .ok (true, s)

/-- `close`: releases the connection and marks the handle closed. -/
def close (s : Store) : Store := { s with closed := true }

/-- `_schema_already_created`: no `schema_version` table means the schema is
missing; otherwise exactly one row must exist and its version must be `1`,
anything else raises. -/
def schema_already_created (f : DBFile) : Except PException Bool :=
  if f.hasSchemaTable = false then .ok false
  else
    match f.schema_version with
    | [v] => if v = 1 then .ok true else .error (.UnsupportedVersion v)
    | rows => .error (.MalformedNodedb rows.length)

/-- The `create table` / `insert into schema_version VALUES (1)` block of
`setup_schema`, run when the schema does not exist yet. -/
def create_schema (f : DBFile) : DBFile :=
  { f with hasSchemaTable := true, schema_version := [1] }

/-- `setup_schema` (guarded by `must_be_open`): if `_schema_already_created`
raises, `close()` the handle and re-raise (the error carries the closed
handle the caller leaked); if it returns `False`, create the schema. -/
def setup_schema (s : Store) : Except (PException × Store) Store :=
  if s.closed then .error (.ClosedException, s)
  else
    match schema_already_created s.file with
    | .ok true => .ok s
    | .ok false => .ok { s with file := create_schema s.file }
    | .error e => .error (e, close s)

/-- `SQLitePeerInfoPersistence.__init__`: connect to the file at `path`
(with `closed = False`) and run `setup_schema`. -/
def sqlite_init (path : String) (f : DBFile) : Except (PException × Store) Store :=
  setup_schema { path := path, file := f, closed := false }

/-- A fresh SQLite database: no tables, no rows (`sqlite3.connect` on a new
path, or on `:memory:`, yields an empty database). -/
def emptyFile : DBFile := ⟨false, [], []⟩

/-- `MemoryPeerInfoPersistence.__init__`: `super().__init__(Path(":memory:"))`
— each instance connects to its own fresh empty in-memory database. -/
def memory_init : Except (PException × Store) Store := sqlite_init ":memory:" emptyFile

/-- One client call against a store: a `record_failure` or a
`should_connect_to`, each at the `current_time()` it observes. -/
inductive Op where
  | fail (remote : String) (timeout : Nat) (reason : String) (now : Time)
  | query (remote : String) (now : Time)
deriving Repr, DecidableEq

/-- Run one `Op` against a store. -/
def applyOp (s : Store) (op : Op) : Except PException Store :=
  match op with
  | .fail remote timeout reason now => record_failure s remote timeout reason now
  | .query remote now => (should_connect_to s remote now).map Prod.snd

/-- Run a sequence of client calls against a store; a raised exception aborts
the run, as it would abort the Python caller. -/
def applyOps (s : Store) : List Op → Except PException Store
  | [] => .ok s
  | op :: l =>
    match applyOp s op with
    | .ok s' => applyOps s' l
    | .error e => .error e

/-- The store `MemoryPeerInfoPersistence()` (equally, a `SQLitePeerInfoPersistence`
on a fresh path) hands back: schema created, no failure rows. -/
def memStore : Store := ⟨":memory:", ⟨true, [1], []⟩, false⟩

/-- The invariant of claim C7: every peer identity owns at most one row of
`bad_nodes`. -/
def uniquePeers (f : DBFile) : Prop := (f.bad_nodes.map Row.enode).Nodup

/-- Erase the diagnostic `reason` field of a row. -/
def scrubRow (r : Row) : Row := { r with reason := "" }

/-- Erase every `reason` in the `bad_nodes` table. -/
def scrubFile (f : DBFile) : DBFile := { f with bad_nodes := f.bad_nodes.map scrubRow }

/-- Erase every `reason` a store holds. -/
def scrubStore (s : Store) : Store := { s with file := scrubFile s.file }

/-- Erase the `reason` argument of a client call. -/
def scrubOp : Op → Op
  | .fail remote timeout _ now => .fail remote timeout "" now
  | .query remote now => .query remote now

/-- `memStore` after `record_failure("p", timeout 1, "r")` at instant 0 (or at
any instant inside the first second): one row, persisted `until` second 1. -/
def memStoreFail : Store := ⟨":memory:", ⟨true, [1], [⟨"p", 1, "r", 1⟩]⟩, false⟩

/-- `memStore` after one failure for `"p"` recorded with reason `"ra"`. -/
def memStoreRa : Store := ⟨":memory:", ⟨true, [1], [⟨"p", 1, "ra", 1⟩]⟩, false⟩

/-- `memStore` after one failure for `"p"` recorded with reason `"rb"`. -/
def memStoreRb : Store := ⟨":memory:", ⟨true, [1], [⟨"p", 1, "rb", 1⟩]⟩, false⟩

/-- `memStore` after two consecutive failures for `"p"` with timeout 1, the
second at instant 500000: `error_count` 2, persisted `until` second 2. -/
def memStoreTwice : Store := ⟨":memory:", ⟨true, [1], [⟨"p", 2, "r", 2⟩]⟩, false⟩

/-- A fresh durable store opened on path `"nodedb"`. -/
def sqlStore : Store := ⟨"nodedb", ⟨true, [1], []⟩, false⟩

/-- `sqlStore` after `record_failure("p", timeout 10, "r")` at instant 0. -/
def sqlStoreFail : Store := ⟨"nodedb", ⟨true, [1], [⟨"p", 10, "r", 1⟩]⟩, false⟩

/-- `sqlStore` after two failures for `"p"` with timeout 10, both at instant 0. -/
def sqlStoreFail2 : Store := ⟨"nodedb", ⟨true, [1], [⟨"p", 20, "r", 2⟩]⟩, false⟩

/-! ### Helper lemmas -/

theorem find?_map_enode (g : Row → Row) (hg : ∀ r, (g r).enode = r.enode)
    (l : List Row) (e : String) :
    (l.map g).find? (fun r => r.enode == e) =
      (l.find? (fun r => r.enode == e)).map g := by
  induction l with
  | nil => rfl
  | cons a tl ih =>
    simp only [List.map_cons, List.find?_cons]
    have he : ((g a).enode == e) = (a.enode == e) := by rw [hg a]
    rw [he]
    cases h : a.enode == e <;> simp [ih]

theorem fetch_insert_self (s : Store) (p : String) (u : Time) (r : String) (n : Nat)
    (hnone : fetch_node s.file p = none) :
    fetch_node (insert_node s p u r n).file p = some ⟨p, time_to_str u, r, n⟩ := by
  simp only [fetch_node, insert_node] at *
  rw [List.find?_append, hnone]
  simp

theorem fetch_insert_other (s : Store) (p : String) (u : Time) (r : String) (n : Nat)
    (q : String) (hq : q ≠ p) :
    fetch_node (insert_node s p u r n).file q = fetch_node s.file q := by
  simp only [fetch_node, insert_node]
  rw [List.find?_append]
  have hpq : (p == q) = false := by
    simp only [beq_eq_false_iff_ne]
    exact fun h => hq h.symm
  have : List.find? (fun r => r.enode == q) [(⟨p, time_to_str u, r, n⟩ : Row)] = none := by
    simp [List.find?, hpq]
  rw [this, Option.or_none]

theorem fetch_update_self (s : Store) (p : String) (u : Time) (r : String) (n : Nat)
    (row : Row) (hsome : fetch_node s.file p = some row) :
    fetch_node (update_node s p u r n).file p = some ⟨row.enode, time_to_str u, r, n⟩ := by
  have hp : (row.enode == p) = true := List.find?_some (p := fun r : Row => r.enode == p) hsome
  simp only [fetch_node, update_node] at *
  rw [find?_map_enode _ (fun r' => by split <;> rfl), hsome]
  simp [hp]
  intro h
  exact absurd (by simpa using hp) h

theorem fetch_update_other (s : Store) (p : String) (u : Time) (r : String) (n : Nat)
    (q : String) (hq : q ≠ p) :
    fetch_node (update_node s p u r n).file q = fetch_node s.file q := by
  simp only [fetch_node, update_node]
  rw [find?_map_enode _ (fun r' => by split <;> rfl)]
  cases hfq : List.find? (fun r => r.enode == q) s.file.bad_nodes with
  | none => rfl
  | some row =>
    have : (row.enode == q) = true := List.find?_some (p := fun r : Row => r.enode == q) hfq
    have hne : (row.enode == p) = false := by
      simp only [beq_iff_eq] at this ⊢
      simpa [this] using hq
    simp [hne]
    intro h
    exact absurd h (by simpa using hne)

/-- The enode found for `p` really has enode `p`. -/
theorem fetch_enode_eq (f : DBFile) (p : String) (row : Row)
    (h : fetch_node f p = some row) : row.enode = p := by
  have := List.find?_some (p := fun r : Row => r.enode == p) h
  simpa [beq_iff_eq] using this

/-- On an open store, `record_failure` never raises, and the row it leaves for
`p` is exactly the upserted one. -/
theorem record_failure_spec (s : Store) (p : String) (t : Nat) (r : String) (now : Time)
    (ho : s.closed = false) :
    ∃ s', record_failure s p t r now = .ok s' ∧
      (match fetch_node s.file p with
        | none =>
            s' = insert_node s p (now + t * usecPerSec) r 1 ∧
            fetch_node s'.file p = some ⟨p, time_to_str (now + t * usecPerSec), r, 1⟩
        | some row =>
            s' = update_node s p (now + t * (row.error_count + 1) * usecPerSec) r
                   (row.error_count + 1) ∧
            fetch_node s'.file p =
              some ⟨p, time_to_str (now + t * (row.error_count + 1) * usecPerSec), r,
                    row.error_count + 1⟩) := by
  cases hf : fetch_node s.file p with
  | none =>
    refine ⟨insert_node s p (now + t * usecPerSec) r 1, ?_, ?_⟩
    · simp [record_failure, ho, hf]
    · exact ⟨rfl, fetch_insert_self s p _ r 1 hf⟩
  | some row =>
    refine ⟨update_node s p (now + t * (row.error_count + 1) * usecPerSec) r
      (row.error_count + 1), ?_, ?_⟩
    · simp [record_failure, ho, hf]
    · refine ⟨rfl, ?_⟩
      have := fetch_update_self s p (now + t * (row.error_count + 1) * usecPerSec) r
        (row.error_count + 1) row hf
      rwa [fetch_enode_eq s.file p row hf] at this

/-- `record_failure` only raises on a closed store. -/
theorem record_failure_ok (s : Store) (p : String) (t : Nat) (r : String) (now : Time)
    (ho : s.closed = false) : ∃ s', record_failure s p t r now = .ok s' := by
  obtain ⟨s', h, -⟩ := record_failure_spec s p t r now ho
  exact ⟨s', h⟩

/-- A successful `record_failure` touches only the `bad_nodes` table and keeps
the handle open. -/
theorem record_failure_frame (s : Store) (p : String) (t : Nat) (r : String) (now : Time)
    (s' : Store) (h : record_failure s p t r now = .ok s') :
    s'.path = s.path ∧ s'.closed = s.closed ∧
    s'.file.hasSchemaTable = s.file.hasSchemaTable ∧
    s'.file.schema_version = s.file.schema_version := by
  by_cases hc : s.closed
  · simp [record_failure, hc] at h
  · simp only [record_failure, hc, if_neg, Bool.false_eq_true, if_false] at h
    cases hf : fetch_node s.file p <;> rw [hf] at h <;>
      simp only [Except.ok.injEq] at h <;> subst h <;>
      simp [insert_node, update_node, hc]

/-- On an open store `should_connect_to` never raises and leaves the store as
it was. -/
theorem should_connect_shape (s : Store) (q : String) (now : Time)
    (ho : s.closed = false) :
    ∃ b, should_connect_to s q now = .ok (b, s) := by
  simp only [should_connect_to, ho, Bool.false_eq_true, if_false]
  cases fetch_node s.file q with
  | none => exact ⟨true, rfl⟩
  | some row =>
    by_cases h : now < str_to_time row.until_ <;> simp [h]

/-- The answer of `should_connect_to` depends only on the `closed` flag and
the row fetched for the queried peer. -/
theorem should_connect_congr (s1 s2 : Store) (q : String) (now : Time)
    (hc : s1.closed = s2.closed)
    (hf : fetch_node s1.file q = fetch_node s2.file q) :
    (should_connect_to s1 q now).map Prod.fst =
      (should_connect_to s2 q now).map Prod.fst := by
  by_cases h : s1.closed
  · simp [should_connect_to, h, hc ▸ h, ← hc]
  · have h2 : s2.closed = false := by rw [← hc]; simpa using h
    have h1 : s1.closed = false := by simpa using h
    simp only [should_connect_to, h1, h2, Bool.false_eq_true, if_false, hf]
    cases fetch_node s2.file q with
    | none => rfl
    | some row => by_cases hlt : now < str_to_time row.until_ <;> simp [hlt, Except.map]

/-- The store a successful `should_connect_to` leaves behind is the one it
was called on. -/
theorem should_connect_state (s : Store) (q : String) (now : Time) (b : Bool) (s' : Store)
    (h : should_connect_to s q now = .ok (b, s')) : s' = s := by
  by_cases hc : s.closed
  · simp [should_connect_to, hc] at h
  · obtain ⟨b0, hs⟩ := should_connect_shape s q now (by simpa using hc)
    rw [hs] at h
    cases h
    rfl

/-- One client call keeps the path, the `closed` flag and the schema tables
as they were. -/
theorem applyOp_frame (s : Store) (op : Op) (s' : Store) (h : applyOp s op = .ok s') :
    s'.path = s.path ∧ s'.closed = s.closed ∧
    s'.file.hasSchemaTable = s.file.hasSchemaTable ∧
    s'.file.schema_version = s.file.schema_version := by
  cases op with
  | fail remote timeout reason now =>
    exact record_failure_frame s remote timeout reason now s' h
  | query remote now =>
    simp only [applyOp] at h
    cases hq : should_connect_to s remote now with
    | error e => rw [hq] at h; simp [Except.map] at h
    | ok bs =>
      rw [hq] at h
      simp only [Except.map, Except.ok.injEq] at h
      have := should_connect_state s remote now bs.1 bs.2 (by rw [hq])
      rw [← h, this]
      exact ⟨rfl, rfl, rfl, rfl⟩

/-- A whole run of client calls keeps the path, the `closed` flag and the
schema tables as they were. -/
theorem applyOps_frame (l : List Op) : ∀ (s s' : Store), applyOps s l = .ok s' →
    s'.path = s.path ∧ s'.closed = s.closed ∧
    s'.file.hasSchemaTable = s.file.hasSchemaTable ∧
    s'.file.schema_version = s.file.schema_version := by
  induction l with
  | nil =>
    intro s s' h
    cases h
    exact ⟨rfl, rfl, rfl, rfl⟩
  | cons op tl ih =>
    intro s s' h
    simp only [applyOps] at h
    cases hop : applyOp s op with
    | error e => rw [hop] at h; cases h
    | ok s1 =>
      rw [hop] at h
      obtain ⟨h1, h2, h3, h4⟩ := applyOp_frame s op s1 hop
      obtain ⟨g1, g2, g3, g4⟩ := ih s1 s' h
      exact ⟨g1.trans h1, g2.trans h2, g3.trans h3, g4.trans h4⟩

theorem record_failure_nodup (s : Store) (p : String) (t : Nat) (r : String) (now : Time)
    (s' : Store) (h : record_failure s p t r now = .ok s')
    (hn : uniquePeers s.file) : uniquePeers s'.file := by
  by_cases hc : s.closed
  · simp [record_failure, hc] at h
  · have ho : s.closed = false := by simpa using hc
    obtain ⟨s2, h2, hrest⟩ := record_failure_spec s p t r now ho
    rw [h2] at h
    cases h
    cases hf : fetch_node s.file p with
    | none =>
      rw [hf] at hrest
      rw [hrest.1]
      simp only [uniquePeers, insert_node, List.map_append, List.map_cons, List.map_nil]
      rw [List.nodup_append]
      refine ⟨hn, List.nodup_singleton p, ?_⟩
      intro e he hmem
      simp only [List.mem_singleton] at hmem
      subst hmem
      obtain ⟨row, hrow, hrowe⟩ := List.mem_map.mp he
      have := List.find?_eq_none.mp hf row hrow
      simp only [beq_iff_eq] at this
      exact this hrowe
    | some row =>
      rw [hf] at hrest
      rw [hrest.1]
      simp only [uniquePeers, update_node, List.map_map]
      have heq : (Row.enode ∘ fun r' =>
          if r'.enode == p then
            { r' with
              until_ := time_to_str (now + t * (row.error_count + 1) * usecPerSec),
              reason := r,
              error_count := row.error_count + 1 }
          else r') = Row.enode := by
        funext r'
        simp only [Function.comp]
        split <;> rfl
      rw [heq]
      exact hn

theorem applyOp_nodup (s : Store) (op : Op) (s' : Store) (h : applyOp s op = .ok s')
    (hn : uniquePeers s.file) : uniquePeers s'.file := by
  cases op with
  | fail remote timeout reason now =>
    exact record_failure_nodup s remote timeout reason now s' h hn
  | query remote now =>
    simp only [applyOp] at h
    cases hq : should_connect_to s remote now with
    | error e => rw [hq] at h; simp [Except.map] at h
    | ok bs =>
      rw [hq] at h
      simp only [Except.map, Except.ok.injEq] at h
      have := should_connect_state s remote now bs.1 bs.2 (by rw [hq])
      rw [← h, this]
      exact hn

theorem applyOps_nodup (l : List Op) : ∀ (s s' : Store), applyOps s l = .ok s' →
    uniquePeers s.file → uniquePeers s'.file := by
  induction l with
  | nil => intro s s' h hn; cases h; exact hn
  | cons op tl ih =>
    intro s s' h hn
    simp only [applyOps] at h
    cases hop : applyOp s op with
    | error e => rw [hop] at h; cases h
    | ok s1 =>
      rw [hop] at h
      exact ih s1 s' h (applyOp_nodup s op s1 hop hn)

/-- A fresh SQLite store (any path, also `:memory:`): the schema is created
and the `bad_nodes` table is empty. -/
theorem sqlite_init_empty (path : String) :
    sqlite_init path emptyFile = .ok ⟨path, ⟨true, [1], []⟩, false⟩ := rfl

theorem fetch_scrub (f : DBFile) (q : String) :
    fetch_node (scrubFile f) q = (fetch_node f q).map scrubRow :=
  find?_map_enode scrubRow (fun _ => rfl) f.bad_nodes q

theorem update_scrub (s : Store) (p : String) (u : Time) (r : String) (n : Nat) :
    scrubStore (update_node s p u r n) = update_node (scrubStore s) p u "" n := by
  have hl : (s.file.bad_nodes.map (fun x =>
        if x.enode == p then { x with until_ := time_to_str u, reason := r, error_count := n }
        else x)).map scrubRow
      = (s.file.bad_nodes.map scrubRow).map (fun x =>
        if x.enode == p then { x with until_ := time_to_str u, reason := "", error_count := n }
        else x) := by
    rw [List.map_map, List.map_map]
    apply List.map_congr_left
    intro x _
    simp only [Function.comp, scrubRow]
    by_cases hx : x.enode == p <;> simp [hx]
  simp only [scrubStore, scrubFile, update_node]
  rw [Store.mk.injEq, DBFile.mk.injEq]
  exact ⟨rfl, ⟨rfl, rfl, hl⟩, rfl⟩

theorem insert_scrub (s : Store) (p : String) (u : Time) (r : String) (n : Nat) :
    scrubStore (insert_node s p u r n) = insert_node (scrubStore s) p u "" n := by
  simp [scrubStore, scrubFile, insert_node, scrubRow]

theorem record_scrub (s : Store) (p : String) (t : Nat) (r : String) (now : Time) :
    (record_failure s p t r now).map scrubStore =
      record_failure (scrubStore s) p t "" now := by
  by_cases hc : s.closed
  · simp [record_failure, scrubStore, scrubFile, hc, Except.map]
  · have ho : s.closed = false := by simpa using hc
    have ho' : (scrubStore s).closed = false := ho
    simp only [record_failure, ho, ho', Bool.false_eq_true, if_false]
    have hfs : fetch_node (scrubStore s).file p = (fetch_node s.file p).map scrubRow :=
      fetch_scrub s.file p
    rw [hfs]
    cases hf : fetch_node s.file p with
    | none =>
      exact congrArg Except.ok (insert_scrub s p (now + t * usecPerSec) r 1)
    | some row =>
      exact congrArg Except.ok
        (update_scrub s p (now + t * (row.error_count + 1) * usecPerSec) r
          (row.error_count + 1))

theorem query_scrub_fst (s : Store) (q : String) (now : Time) :
    (should_connect_to s q now).map Prod.fst =
      (should_connect_to (scrubStore s) q now).map Prod.fst := by
  by_cases hc : s.closed
  · simp [should_connect_to, scrubStore, hc, Except.map]
  · have ho : s.closed = false := by simpa using hc
    have ho' : (scrubStore s).closed = false := ho
    simp only [should_connect_to, ho, ho', Bool.false_eq_true, if_false]
    have hfs : fetch_node (scrubStore s).file q = (fetch_node s.file q).map scrubRow :=
      fetch_scrub s.file q
    rw [hfs]
    cases hf : fetch_node s.file q with
    | none => rfl
    | some row =>
      have hu : (scrubRow row).until_ = row.until_ := rfl
      show Except.map Prod.fst
          (if now < str_to_time row.until_ then Except.ok (false, s)
           else Except.ok (true, s)) =
        Except.map Prod.fst
          (if now < str_to_time (scrubRow row).until_ then Except.ok (false, scrubStore s)
           else Except.ok (true, scrubStore s))
      rw [hu]
      by_cases hlt : now < str_to_time row.until_
      · rw [if_pos hlt, if_pos hlt]; rfl
      · rw [if_neg hlt, if_neg hlt]; rfl

theorem applyOp_scrub (s : Store) (op : Op) :
    (applyOp s op).map scrubStore = applyOp (scrubStore s) (scrubOp op) := by
  cases op with
  | fail remote timeout reason now => exact record_scrub s remote timeout reason now
  | query remote now =>
    by_cases hc : s.closed
    · simp [applyOp, scrubOp, should_connect_to, scrubStore, hc, Except.map]
    · have ho : s.closed = false := by simpa using hc
      obtain ⟨b1, hb1⟩ := should_connect_shape s remote now ho
      obtain ⟨b2, hb2⟩ := should_connect_shape (scrubStore s) remote now ho
      simp [applyOp, scrubOp, hb1, hb2, Except.map]

theorem applyOps_scrub (l : List Op) : ∀ s : Store,
    (applyOps s l).map scrubStore = applyOps (scrubStore s) (l.map scrubOp) := by
  induction l with
  | nil => intro s; rfl
  | cons op tl ih =>
    intro s
    simp only [applyOps, List.map_cons]
    cases hop : applyOp s op with
    | error e =>
      have hs : applyOp (scrubStore s) (scrubOp op) = .error e := by
        rw [← applyOp_scrub, hop]; rfl
      rw [hs]
      rfl
    | ok s1 =>
      have hs : applyOp (scrubStore s) (scrubOp op) = .ok (scrubStore s1) := by
        rw [← applyOp_scrub, hop]; rfl
      rw [hs]
      exact ih s1

/-- `must_be_open`: a closed handle rejects `record_failure`. -/
theorem closed_record (s : Store) (hc : s.closed = true) (p : String) (t : Nat)
    (r : String) (now : Time) :
    record_failure s p t r now = .error .ClosedException := by
  simp [record_failure, hc]

/-- `must_be_open`: a closed handle rejects `should_connect_to`. -/
theorem closed_query (s : Store) (hc : s.closed = true) (q : String) (now : Time) :
    should_connect_to s q now = .error .ClosedException := by
  simp [should_connect_to, hc]

/-- `must_be_open`: a closed handle rejects `setup_schema`, leaving the store
untouched. -/
theorem closed_setup (s : Store) (hc : s.closed = true) :
    setup_schema s = .error (.ClosedException, s) := by
  simp [setup_schema, hc]

/-- Truncating an instant to whole seconds loses less than one second. -/
theorem trunc_le (x : Time) :
    str_to_time (time_to_str x) ≤ x ∧ x < str_to_time (time_to_str x) + usecPerSec := by
  simp only [str_to_time, time_to_str, usecPerSec]
  constructor
  · exact Nat.div_mul_le_self x 1000000
  · exact Nat.lt_div_mul_add (by norm_num)

/-- Unfolding `should_connect_to` when a row is present on an open store. -/
theorem should_connect_some (s : Store) (q : String) (now : Time) (row : Row)
    (ho : s.closed = false) (h : fetch_node s.file q = some row) :
    should_connect_to s q now =
      if now < str_to_time row.until_ then .ok (false, s) else .ok (true, s) := by
  simp only [should_connect_to, ho, Bool.false_eq_true, if_false]
  rw [h]

/-! ### The claims -/

/-- C3: after `close()` has been called on a store, every operation invoked on
it (`record_failure`, `should_connect_to`, `setup_schema`) fails with the
distinguished closed-store error `ClosedException`; none silently no-ops, and
the state the failing call leaves behind is exactly the state it found. -/
theorem C3_closed_store_rejects (s : Store) (hc : s.closed = true) :
    (∀ p t r now, record_failure s p t r now = .error .ClosedException) ∧
    (∀ q now, should_connect_to s q now = .error .ClosedException) ∧
    setup_schema s = .error (.ClosedException, s) :=
  ⟨fun p t r now => closed_record s hc p t r now,
   fun q now => closed_query s hc q now,
   closed_setup s hc⟩

theorem C3_witness :
    record_failure (close memStore) "p" 10 "timeout" 0 = .error .ClosedException :=
  (C3_closed_store_rejects (close memStore) rfl).1 "p" 10 "timeout" 0

/-- C4: constructing a store on a file whose `schema_version` table exists but
does not hold exactly the single row `1` raises, the handle is closed before
the error propagates, and every operation on the leaked handle raises
`ClosedException` — no operation on that store ever becomes possible. -/
theorem C4_malformed_schema_fatal (path : String) (f : DBFile)
    (h1 : f.hasSchemaTable = true) (h2 : f.schema_version ≠ [1]) :
    ∃ e st, sqlite_init path f = .error (e, st) ∧ st.closed = true ∧
      (∀ p t r now, record_failure st p t r now = .error .ClosedException) ∧
      (∀ q now, should_connect_to st q now = .error .ClosedException) := by
  have hs : ∃ e, schema_already_created f = .error e := by
    unfold schema_already_created
    rw [h1]
    simp only [Bool.true_eq_false, if_false]
    rcases hv : f.schema_version with - | ⟨v, - | ⟨w, rest⟩⟩
    · exact ⟨.MalformedNodedb 0, rfl⟩
    · have hv1 : v ≠ 1 := fun h => h2 (by rw [hv, h])
      simp only [hv1, if_false]
      exact ⟨.UnsupportedVersion v, rfl⟩
    · exact ⟨.MalformedNodedb (v :: w :: rest).length, rfl⟩
  obtain ⟨e, he⟩ := hs
  refine ⟨e, close ⟨path, f, false⟩, ?_, rfl, ?_, ?_⟩
  · unfold sqlite_init setup_schema
    rw [if_neg (by simp)]
    rw [he]
  · exact fun p t r now => closed_record _ rfl p t r now
  · exact fun q now => closed_query _ rfl q now

theorem C4_witness :
    ∃ e st, sqlite_init "nodedb" ⟨true, [2], []⟩ = .error (e, st) ∧ st.closed = true ∧
      (∀ p t r now, record_failure st p t r now = .error .ClosedException) ∧
      (∀ q now, should_connect_to st q now = .error .ClosedException) :=
  C4_malformed_schema_fatal "nodedb" ⟨true, [2], []⟩ rfl (by decide)

/-- C6: however a first ephemeral instance has been used (any sequence of
calls, failures included), a separately constructed ephemeral instance starts
from its own fresh `:memory:` database: it holds no failure rows and answers
`should_connect_to = true` for every peer at every time — it never observes
the other instance's failures, and reconstruction after `close()` discards
all prior state. -/
theorem C6_memory_isolated (l : List Op) (s0 sA : Store)
    (h0 : memory_init = .ok s0) (hA : applyOps s0 l = .ok sA) :
    ∃ sB, memory_init = .ok sB ∧ sB.file.bad_nodes = [] ∧
      ∀ p now, should_connect_to sB p now = .ok (true, sB) :=
  ⟨memStore, rfl, rfl, fun _ _ => rfl⟩

theorem C6_witness :
    ∃ sB, memory_init = .ok sB ∧ sB.file.bad_nodes = [] ∧
      ∀ p now, should_connect_to sB p now = .ok (true, sB) :=
  C6_memory_isolated [.fail "p" 1 "r" 0] memStore memStoreFail rfl rfl

/-- C7: in every state reachable from a freshly constructed store by any
sequence of `record_failure` and `should_connect_to` calls, each peer identity
has at most one `bad_nodes` row (the `enode` column stays duplicate-free):
`record_failure` has upsert semantics. -/
theorem C7_unique_rows (path : String) (s0 : Store) (l : List Op) (s : Store)
    (h0 : sqlite_init path emptyFile = .ok s0) (h : applyOps s0 l = .ok s) :
    uniquePeers s.file := by
  rw [sqlite_init_empty] at h0
  cases h0
  exact applyOps_nodup l _ s h (by simp [uniquePeers])

theorem C7_witness : uniquePeers sqlStoreFail2.file :=
  C7_unique_rows "nodedb" sqlStore [.fail "p" 10 "r" 0, .fail "p" 10 "r" 0]
    sqlStoreFail2 rfl rfl

/-- C5: for the durable store, after any sequence of client calls from a fresh
construction, closing the store and constructing a new store on the same path
succeeds and yields a store whose database file — and hence every
`should_connect_to` answer at every query time — is exactly that of the
closed store. -/
theorem C5_roundtrip (path : String) (s0 : Store) (l : List Op) (s : Store)
    (h0 : sqlite_init path emptyFile = .ok s0) (h : applyOps s0 l = .ok s) :
    ∃ s', sqlite_init (close s).path (close s).file = .ok s' ∧
      s'.file = s.file ∧
      ∀ q now, should_connect_to s' q now = should_connect_to s q now := by
  rw [sqlite_init_empty] at h0
  cases h0
  obtain ⟨hp, hc, hst, hsv⟩ := applyOps_frame l _ s h
  have hc' : s.closed = false := hc
  have hst' : s.file.hasSchemaTable = true := hst
  have hsv' : s.file.schema_version = [1] := hsv
  refine ⟨⟨s.path, s.file, false⟩, ?_, rfl, ?_⟩
  · show setup_schema ⟨s.path, s.file, false⟩ = _
    unfold setup_schema
    rw [if_neg (by simp)]
    have hsc : schema_already_created s.file = .ok true := by
      unfold schema_already_created
      rw [hst', hsv']
      rfl
    rw [hsc]
  · have hs : (⟨s.path, s.file, false⟩ : Store) = s := by rw [← hc']
    rw [hs]
    exact fun _ _ => rfl

theorem C5_witness :
    ∃ s', sqlite_init (close sqlStoreFail).path (close sqlStoreFail).file = .ok s' ∧
      s'.file = sqlStoreFail.file ∧
      ∀ q now, should_connect_to s' q now = should_connect_to sqlStoreFail q now :=
  C5_roundtrip "nodedb" sqlStore [.fail "p" 10 "r" 0] sqlStoreFail rfl rfl

/-- C9: `record_failure(p, t, r)` leaves the row of every peer `q ≠ p`
unchanged — and with it every `should_connect_to(q)` answer at every query
time — and `should_connect_to` itself never modifies the store. -/
theorem C9_frame (s : Store) (p : String) (t : Nat) (r : String) (now : Time)
    (s' : Store) (hrec : record_failure s p t r now = .ok s') :
    (∀ q, q ≠ p → fetch_node s'.file q = fetch_node s.file q ∧
      ∀ n, (should_connect_to s' q n).map Prod.fst =
        (should_connect_to s q n).map Prod.fst) ∧
    (∀ q n b s2, should_connect_to s q n = .ok (b, s2) → s2 = s) := by
  constructor
  · intro q hq
    by_cases hcl : s.closed
    · rw [closed_record s (by simpa using hcl) p t r now] at hrec
      cases hrec
    · have ho : s.closed = false := by simpa using hcl
      obtain ⟨s2, hs2, hrest⟩ := record_failure_spec s p t r now ho
      rw [hs2] at hrec
      cases hrec
      cases hf : fetch_node s.file p with
      | none =>
        rw [hf] at hrest
        rw [hrest.1]
        have hfq := fetch_insert_other s p (now + t * usecPerSec) r 1 q hq
        exact ⟨hfq, fun n => should_connect_congr _ s q n rfl hfq⟩
      | some row =>
        rw [hf] at hrest
        rw [hrest.1]
        have hfq := fetch_update_other s p (now + t * (row.error_count + 1) * usecPerSec)
          r (row.error_count + 1) q hq
        exact ⟨hfq, fun n => should_connect_congr _ s q n rfl hfq⟩
  · exact fun q n b s2 h => should_connect_state s q n b s2 h

theorem C9_witness :
    fetch_node memStoreFail.file "q" = fetch_node memStore.file "q" :=
  ((C9_frame memStore "p" 1 "r" 0 memStoreFail rfl).1 "q" (by decide)).1

/-- C10: `str_to_time(time_to_str(x))` is `x` with its sub-second part
discarded; consequently the `until` column persisted by `record_failure`
is the whole-second truncation of the exact instant
`now + timeout * error_count` seconds — at most one second (strictly less)
earlier than the exact value. -/
theorem C10_truncation :
    (∀ x : Time, str_to_time (time_to_str x) = x - x % usecPerSec) ∧
    (∀ (s : Store) (p : String) (tmo : Nat) (r : String) (now : Time)
       (s' : Store) (row : Row),
      record_failure s p tmo r now = .ok s' → fetch_node s'.file p = some row →
      row.until_ = time_to_str (now + tmo * row.error_count * usecPerSec) ∧
      str_to_time row.until_ ≤ now + tmo * row.error_count * usecPerSec ∧
      now + tmo * row.error_count * usecPerSec < str_to_time row.until_ + usecPerSec) := by
  constructor
  · intro x
    have h : ∀ y : Nat, y / 1000000 * 1000000 = y - y % 1000000 := fun y => by omega
    exact h x
  · intro s p tmo r now s' row hrec hfetch
    by_cases hcl : s.closed
    · rw [closed_record s (by simpa using hcl) p tmo r now] at hrec
      cases hrec
    · have ho : s.closed = false := by simpa using hcl
      obtain ⟨s2, hs2, hrest⟩ := record_failure_spec s p tmo r now ho
      rw [hs2] at hrec
      cases hrec
      cases hf : fetch_node s.file p with
      | none =>
        rw [hf] at hrest
        rw [hrest.2] at hfetch
        cases hfetch
        refine ⟨?_, ?_, ?_⟩ <;> simp only [Nat.mul_one]
        · exact (trunc_le (now + tmo * usecPerSec)).1
        · exact (trunc_le (now + tmo * usecPerSec)).2
      | some rowOld =>
        rw [hf] at hrest
        rw [hrest.2] at hfetch
        cases hfetch
        exact ⟨rfl, (trunc_le _).1, (trunc_le _).2⟩

theorem C10_witness :
    (⟨"p", 1, "r", 1⟩ : Row).until_ =
      time_to_str (500000 + 1 * (⟨"p", 1, "r", 1⟩ : Row).error_count * usecPerSec) ∧
    str_to_time (⟨"p", 1, "r", 1⟩ : Row).until_ ≤
      500000 + 1 * (⟨"p", 1, "r", 1⟩ : Row).error_count * usecPerSec ∧
    500000 + 1 * (⟨"p", 1, "r", 1⟩ : Row).error_count * usecPerSec <
      str_to_time (⟨"p", 1, "r", 1⟩ : Row).until_ + usecPerSec :=
  C10_truncation.2 memStore "p" 1 "r" 500000 memStoreFail ⟨"p", 1, "r", 1⟩ rfl rfl

/-- C8: the `reason` string is diagnostic only — two runs from the same store
whose call sequences agree except for the `reason` arguments passed to
`record_failure` give identical `should_connect_to` answers at every query
time. -/
theorem C8_reason_noninterference (s : Store) (l1 l2 : List Op)
    (hshape : l1.map scrubOp = l2.map scrubOp) (s1 s2 : Store)
    (h1 : applyOps s l1 = .ok s1) (h2 : applyOps s l2 = .ok s2)
    (q : String) (now : Time) :
    (should_connect_to s1 q now).map Prod.fst =
      (should_connect_to s2 q now).map Prod.fst := by
  have e1 := applyOps_scrub l1 s
  have e2 := applyOps_scrub l2 s
  rw [h1] at e1
  rw [h2] at e2
  rw [hshape] at e1
  have e1' : Except.ok (scrubStore s1) = applyOps (scrubStore s) (l2.map scrubOp) := e1
  have e2' : Except.ok (scrubStore s2) = applyOps (scrubStore s) (l2.map scrubOp) := e2
  have hss : scrubStore s1 = scrubStore s2 := Except.ok.inj (e1'.trans e2'.symm)
  rw [query_scrub_fst s1 q now, query_scrub_fst s2 q now, hss]

theorem C8_witness :
    (should_connect_to memStoreRa "p" 500).map Prod.fst =
      (should_connect_to memStoreRb "p" 500).map Prod.fst :=
  C8_reason_noninterference memStore [.fail "p" 1 "ra" 0] [.fail "p" 1 "rb" 0] rfl
    memStoreRa memStoreRb rfl rfl "p" 500

/-- C1 counterexample: after `record_failure("p", timeout 1 s, "r")` at
T = 500000 µs (0.5 s), the query at 1200000 µs (1.2 s) lies inside the
claimed window [T, T + t) = [0.5 s, 1.5 s), yet `should_connect_to` already
answers `true` — the persisted whole-second truncation ends the enforced
window at 1 s. -/
theorem C1_counterexample :
    memory_init = .ok memStore ∧
    (record_failure memStore "p" 1 "r" 500000).bind
      (fun s1 => (should_connect_to s1 "p" 1200000).map Prod.fst) = .ok true ∧
    500000 ≤ (1200000 : Time) ∧ (1200000 : Time) < 500000 + 1 * usecPerSec :=
  ⟨rfl, rfl, by norm_num, by norm_num [usecPerSec]⟩

/-- C1 (amended): a peer with no FailureRecord gets `true`; a peer with a
record gets `true` iff the current time is at/after the record's persisted
`unusable_until`. After a single `record_failure(p, t, r)` at time T on a
store with no record for p, `should_connect_to(p)` is `false` exactly at
query times before the whole-second truncation of T + t (which equals T + t
whenever T + t is a whole second, e.g. whenever T and t are whole seconds),
and in particular is `true` at every query time at/after T + t. -/
theorem C1_gate_amended (s : Store) (p : String) (t : Nat) (r : String)
    (T n : Time) (ho : s.closed = false) :
    (fetch_node s.file p = none → should_connect_to s p n = .ok (true, s)) ∧
    (∀ row, fetch_node s.file p = some row →
      ((should_connect_to s p n).map Prod.fst = .ok true ↔
        str_to_time row.until_ ≤ n)) ∧
    (fetch_node s.file p = none → ∀ s', record_failure s p t r T = .ok s' →
      (((should_connect_to s' p n).map Prod.fst = .ok false ↔
          n < str_to_time (time_to_str (T + t * usecPerSec))) ∧
        (T + t * usecPerSec ≤ n →
          (should_connect_to s' p n).map Prod.fst = .ok true))) := by
  refine ⟨?_, ?_, ?_⟩
  · intro h
    simp only [should_connect_to, ho, Bool.false_eq_true, if_false]
    rw [h]
  · intro row hrow
    rw [should_connect_some s p n row ho hrow]
    by_cases hlt : n < str_to_time row.until_
    · rw [if_pos hlt]
      simp only [Except.map]
      constructor
      · intro hh
        cases hh
      · intro hle
        exact absurd (lt_of_le_of_lt hle hlt) (lt_irrefl _)
    · rw [if_neg hlt]
      simp only [Except.map]
      exact iff_of_true trivial (Nat.le_of_not_lt hlt)
  · intro hf s' hrec
    obtain ⟨s2, hs2, hrest⟩ := record_failure_spec s p t r T ho
    rw [hs2] at hrec
    cases hrec
    rw [hf] at hrest
    obtain ⟨hins, hfetch⟩ := hrest
    rw [hins]
    have ho' : (insert_node s p (T + t * usecPerSec) r 1).closed = false := ho
    have hfi := fetch_insert_self s p (T + t * usecPerSec) r 1 hf
    constructor
    · rw [should_connect_some _ p n _ ho' hfi]
      by_cases hlt : n < str_to_time (time_to_str (T + t * usecPerSec))
      · rw [if_pos hlt]
        exact iff_of_true rfl hlt
      · rw [if_neg hlt]
        simp only [Except.map]
        constructor
        · intro hh
          cases hh
        · intro hn
          exact absurd hn hlt
    · intro hle
      rw [should_connect_some _ p n _ ho' hfi]
      have hU := (trunc_le (T + t * usecPerSec)).1
      rw [if_neg (Nat.not_lt.mpr (le_trans hU hle))]
      rfl

theorem C1_witness :
    (should_connect_to memStoreFail "p" 500000).map Prod.fst = .ok false :=
  (((C1_gate_amended memStore "p" 1 "r" 0 500000 rfl).2.2) rfl memStoreFail rfl).1.mpr
    (by norm_num [str_to_time, time_to_str, usecPerSec])

/-- C2 counterexample: two consecutive failures for the same peer with
timeout 1 s, at T1 = 0 and T2 = 500000 µs (0.5 s), leave a record with
`error_count = 2` whose persisted `unusable_until` is second 2
(instant 2000000 µs) — not the claimed T2 + 2·t = 2500000 µs. -/
theorem C2_counterexample :
    memory_init = .ok memStore ∧
    (0 : Time) < 500000 ∧
    (record_failure memStore "p" 1 "r" 0).bind
      (fun s1 => record_failure s1 "p" 1 "r" 500000) = .ok memStoreTwice ∧
    fetch_node memStoreTwice.file "p" = some ⟨"p", 2, "r", 2⟩ ∧
    str_to_time 2 ≠ 500000 + 2 * 1 * usecPerSec :=
  ⟨rfl, by norm_num, rfl, rfl, by norm_num [str_to_time, usecPerSec]⟩

/-- C2 (amended): `record_failure(p, t, r)` upserts p's FailureRecord: with no
prior record it inserts `error_count = 1` and persisted
`unusable_until = now + t` truncated to whole seconds; with a prior record it
sets `new_error_count = old_error_count + 1` and persisted
`unusable_until = now + t * new_error_count` truncated to whole seconds, so
two consecutive failures with timeout t at times T1 < T2 yield
`unusable_until` equal to the whole-second truncation of T2 + 2t — exactly
T2 + 2t when T2 (and t·2 s) land on a whole second. Backoff grows linearly
with the consecutive-failure count, not exponentially. -/
theorem C2_record_amended (s : Store) (p : String) (t : Nat) (r : String)
    (now : Time) (ho : s.closed = false) :
    (fetch_node s.file p = none →
      ∃ s', record_failure s p t r now = .ok s' ∧
        fetch_node s'.file p = some ⟨p, time_to_str (now + t * usecPerSec), r, 1⟩) ∧
    (∀ row, fetch_node s.file p = some row →
      ∃ s', record_failure s p t r now = .ok s' ∧
        fetch_node s'.file p =
          some ⟨p, time_to_str (now + t * (row.error_count + 1) * usecPerSec), r,
                row.error_count + 1⟩) ∧
    (∀ T1 T2 s1 s2, T1 < T2 → fetch_node s.file p = none →
      record_failure s p t r T1 = .ok s1 → record_failure s1 p t r T2 = .ok s2 →
      fetch_node s2.file p = some ⟨p, time_to_str (T2 + t * 2 * usecPerSec), r, 2⟩ ∧
      (T2 % usecPerSec = 0 →
        str_to_time (time_to_str (T2 + t * 2 * usecPerSec)) =
          T2 + t * 2 * usecPerSec)) := by
  refine ⟨?_, ?_, ?_⟩
  · intro hf
    obtain ⟨s2, hs2, hrest⟩ := record_failure_spec s p t r now ho
    rw [hf] at hrest
    exact ⟨s2, hs2, hrest.2⟩
  · intro row hrow
    obtain ⟨s2, hs2, hrest⟩ := record_failure_spec s p t r now ho
    rw [hrow] at hrest
    exact ⟨s2, hs2, hrest.2⟩
  · intro T1 T2 s1 s2 hT hf hrec1 hrec2
    obtain ⟨s1', hs1, hrest1⟩ := record_failure_spec s p t r T1 ho
    rw [hs1] at hrec1
    cases hrec1
    rw [hf] at hrest1
    obtain ⟨hins, hfetch1⟩ := hrest1
    have ho1 : s1.closed = false := by rw [hins]; exact ho
    obtain ⟨s2', hs2, hrest2⟩ := record_failure_spec s1 p t r T2 ho1
    rw [hs2] at hrec2
    cases hrec2
    rw [hfetch1] at hrest2
    obtain ⟨-, hfetch2⟩ := hrest2
    constructor
    · exact hfetch2
    · intro hT2
      have harith : ∀ y k : Nat, y % 1000000 = 0 →
          (y + k * 1000000) / 1000000 * 1000000 = y + k * 1000000 := by
        intro y k hy
        omega
      exact harith T2 (t * 2) hT2

theorem C2_witness :
    fetch_node memStoreTwice.file "p" =
      some ⟨"p", time_to_str (500000 + 1 * 2 * usecPerSec), "r", 2⟩ :=
  ((C2_record_amended memStore "p" 1 "r" 0 rfl).2.2 0 500000 memStoreFail memStoreTwice
    (by norm_num) rfl rfl rfl).1

end Trinity
